import Mathlib

/-!
Shallow embedding of the blockchain ledger in `src/main.go` of the
`secure_information` repository.

The Go program keeps a global slice `Blockchain []Block`, initialized with a
genesis block, and exposes an HTTP handler that admits one transaction per
request: it validates the transaction (`isTransactionValid`), mines a new
block (`generateBlock`, an unbounded nonce search over SHA-256 digests),
re-validates the block against the chain tail (`isBlockValid`), and appends it.

Embedding choices:
* SHA-256 (`crypto/sha256` + `encoding/hex`) is implemented as a pure function
  over lists of byte values (`Nat < 256`); strings are UTF-8 encoded first,
  exactly as Go's `[]byte(record)` conversion does.
* Go `int` is modelled as `Int`; Go strings as `String`.
* `fmt.Sprint(block.Transactions)` is modelled by `sprintTransactions`,
  reproducing Go's rendering of a slice of structs.
* The unbounded mining loop `for i := 0; ; i++` is modelled by the
  fuel-indexed `mineLoop`; `none` means the loop has not yet terminated
  within the given fuel (the Go program makes no termination guarantee).
* The global mutable `Blockchain` becomes explicit state: each HTTP `POST`
  is a step of the `Reachable` relation on `List Block`.
-/

set_option maxRecDepth 10000

/-! ## SHA-256 (model of `crypto/sha256`) -/

/-- Truncation to a 32-bit word. -/
def w32 (n : Nat) : Nat := n % 4294967296

/-- Rotation of the word `x` to the right by `k` bit positions. -/
def rotr (x k : Nat) : Nat := w32 ((x >>> k) ||| (x <<< (32 - k)))

/-- The 64 round constants of FIPS 180-4 (fractional parts of the cube roots
of the first 64 primes), written in decimal. -/
def shaK : List Nat :=
  [1116352408, 1899447441, 3049323471, 3921009573, 961987163, 1508970993,
   2453635748, 2870763221, 3624381080, 310598401, 607225278, 1426881987,
   1925078388, 2162078206, 2614888103, 3248222580, 3835390401, 4022224774,
   264347078, 604807628, 770255983, 1249150122, 1555081692, 1996064986,
   2554220882, 2821834349, 2952996808, 3210313671, 3336571891, 3584528711,
   113926993, 338241895, 666307205, 773529912, 1294757372, 1396182291,
   1695183700, 1986661051, 2177026350, 2456956037, 2730485921, 2820302411,
   3259730800, 3345764771, 3516065817, 3600352804, 4094571909, 275423344,
   430227734, 506948616, 659060556, 883997877, 958139571, 1322822218,
   1537002063, 1747873779, 1955562222, 2024104815, 2227730452, 2361852424,
   2428436474, 2756734187, 3204031479, 3329325298]

/-- The eight initial hash words of FIPS 180-4, written in decimal. -/
def shaH0 : List Nat :=
  [1779033703, 3144134277, 1013904242, 2773480762,
   1359893119, 2600822924, 528734635, 1541459225]

/-- Big-endian byte decomposition of `n` into `k` bytes. -/
def bytesBE (k n : Nat) : List Nat :=
  (List.range k).map (fun i => (n >>> (8 * (k - 1 - i))) % 256)

/-- SHA-256 padding: append `0x80`, zero bytes, and the 64-bit bit length. -/
def padMessage (msg : List Nat) : List Nat :=
  let len := msg.length
  let padZeros := (119 - len % 64) % 64
  msg ++ [128] ++ List.replicate padZeros 0 ++ bytesBE 8 (8 * len)

/-- Group bytes into big-endian 32-bit words. -/
def toWords : List Nat → List Nat
  | a :: b :: c :: d :: rest => (((a * 256 + b) * 256 + c) * 256 + d) :: toWords rest
  | _ => []

/-- Word lookup with default 0. -/
def nthW (l : List Nat) (i : Nat) : Nat := l.getD i 0

/-- Extend the 16-word message schedule to 64 words. -/
def extendSchedule : Nat → List Nat → List Nat
  | 0, w => w
  | fuel + 1, w =>
    let i := w.length
    let x15 := nthW w (i - 15)
    let x2 := nthW w (i - 2)
    let s0 := rotr x15 7 ^^^ rotr x15 18 ^^^ (x15 >>> 3)
    let s1 := rotr x2 17 ^^^ rotr x2 19 ^^^ (x2 >>> 10)
    extendSchedule fuel (w ++ [w32 (nthW w (i - 16) + s0 + nthW w (i - 7) + s1)])

/-- One SHA-256 compression round on the 8-word working state. -/
def compressRound (st : List Nat) (kw : Nat × Nat) : List Nat :=
  match st with
  | [a, b, c, d, e, f, g, h] =>
    let s1 := rotr e 6 ^^^ rotr e 11 ^^^ rotr e 25
    let ch := (e &&& f) ^^^ ((e ^^^ 4294967295) &&& g)
    let t1 := w32 (h + s1 + ch + kw.1 + kw.2)
    let s0 := rotr a 2 ^^^ rotr a 13 ^^^ rotr a 22
    let mj := (a &&& b) ^^^ (a &&& c) ^^^ (b &&& c)
    let t2 := w32 (s0 + mj)
    [w32 (t1 + t2), a, b, c, w32 (d + t1), e, f, g]
  | _ => st

/-- Process one 64-byte chunk. -/
def sha256Chunk (h : List Nat) (chunk : List Nat) : List Nat :=
  let w := extendSchedule 48 (toWords chunk)
  let st := (shaK.zip w).foldl compressRound h
  (h.zip st).map (fun p => w32 (p.1 + p.2))

/-- Split a byte list into 64-byte chunks (fuel-driven recursion). -/
def chunks64Go : Nat → List Nat → List (List Nat)
  | _, [] => []
  | 0, _ => []
  | fuel + 1, l => l.take 64 :: chunks64Go fuel (l.drop 64)

/-- Split a byte list into 64-byte chunks. -/
def chunks64 (l : List Nat) : List (List Nat) := chunks64Go l.length l

/-- SHA-256 digest of a byte list, as 32 bytes. -/
def sha256Bytes (msg : List Nat) : List Nat :=
  (((chunks64 (padMessage msg)).foldl sha256Chunk shaH0).map (bytesBE 4)).flatten

/-- Lowercase hexadecimal digit. -/
def hexDigit (n : Nat) : Char :=
  if n < 10 then Char.ofNat (48 + n) else Char.ofNat (87 + n)

/-- Two-digit lowercase hex rendering of a byte (model of `encoding/hex`). -/
def hexByte (b : Nat) : String := String.mk [hexDigit (b / 16), hexDigit (b % 16)]

/-- Lowercase hex string of a byte list. -/
def hexOfBytes (bs : List Nat) : String := String.join (bs.map hexByte)

/-- UTF-8 encoding of a character (model of Go's `[]byte(string)` view). -/
def utf8Char (c : Char) : List Nat :=
  let n := c.toNat
  if n < 128 then [n]
  else if n < 2048 then [192 + n / 64, 128 + n % 64]
  else if n < 65536 then [224 + n / 4096, 128 + (n / 64) % 64, 128 + n % 64]
  else [240 + n / 262144, 128 + (n / 4096) % 64, 128 + (n / 64) % 64, 128 + n % 64]

/-- UTF-8 bytes of a string. -/
def utf8Bytes (s : String) : List Nat := (s.data.map utf8Char).flatten

/-- Hex-encoded SHA-256 of a string, as produced by
`hex.EncodeToString(sha256.Sum(...))` in `calculateHash` (main.go:143-149). -/
def sha256Hex (s : String) : String := hexOfBytes (sha256Bytes (utf8Bytes s))

/-! ## Data model (main.go:16-44) -/

/-- The process-wide difficulty constant (main.go:18). -/
def difficulty : Int := 1

/-- The (unused) mining reward constant (main.go:19). -/
def reward : Int := 1

/-- A single transaction (main.go:23-27). -/
structure Transaction where
  Sender : String
  Receiver : String
  Amount : Int
deriving DecidableEq

/-- One block of the chain (main.go:30-38). -/
structure Block where
  Index : Int
  Timestamp : String
  Transactions : List Transaction
  PrevHash : String
  Hash : String
  Nonce : String
  Difficulty : Int
deriving DecidableEq

/-- Observable outcome of one `POST /` request (main.go:88-115):
`committed i` is the HTTP 200 body "Transaction added to Block i",
`invalidTransaction` the HTTP 400 "Invalid transaction" error, and
`invalidBlock` the HTTP 500 "Invalid block" error. -/
inductive Response where
  | committed (index : Int)
  | invalidTransaction
  | invalidBlock
deriving DecidableEq

/-! ## Core functions -/

/-- Go's `fmt.Sprint` rendering of one `Transaction` struct:
field values separated by spaces, wrapped in braces. -/
def sprintTransaction (t : Transaction) : String :=
  "\x7b" ++ t.Sender ++ " " ++ t.Receiver ++ " " ++ toString t.Amount ++ "\x7d"

/-- Go's `fmt.Sprint` rendering of a `[]Transaction` slice:
space-separated elements in square brackets. -/
def sprintTransactions (txs : List Transaction) : String :=
  "[" ++ String.intercalate " " (txs.map sprintTransaction) ++ "]"

/-- `calculateHash` (main.go:143-149): SHA-256 of the concatenation of the
decimal index, timestamp, previous hash, the `fmt.Sprint` rendering of the
transaction list, and the nonce.  The `Hash` and `Difficulty` fields are not
part of the hashed record. -/
def calculateHash (block : Block) : String :=
  sha256Hex (toString block.Index ++ block.Timestamp ++ block.PrevHash ++
    sprintTransactions block.Transactions ++ block.Nonce)

/-- `isHashValid` (main.go:152-158): the first `difficulty` characters of the
hash must all be the character 0. -/
def isHashValid (hash : String) (difficulty : Int) : Bool :=
  hash.take difficulty.toNat == String.mk (List.replicate difficulty.toNat (Char.ofNat 48))

/-- `isBlockValid` (main.go:161-175): index linkage, hash linkage, and
digest recomputation; no difficulty-prefix check. -/
def isBlockValid (newBlock oldBlock : Block) : Bool :=
  if oldBlock.Index + 1 != newBlock.Index then false
  else if oldBlock.Hash != newBlock.PrevHash then false
  else if calculateHash newBlock != newBlock.Hash then false
  else true

/-- `isTransactionValid` (main.go:178-184). -/
def isTransactionValid (transaction : Transaction) : Bool :=
  if transaction.Sender == "" || transaction.Receiver == "" || decide (transaction.Amount ≤ 0) then
    false
  else true

/-- The zero value `Block\x7b\x7d` of main.go:60: all strings empty, no
transactions, `Index` and `Difficulty` zero. -/
def zeroBlock : Block := ⟨0, "", [], "", "", "", 0⟩

/-- The genesis block of `initializeBlockchain` (main.go:59-63): its `Hash`
field is `calculateHash` applied to the zero value `zeroBlock`, not to the
genesis block's own final fields; `ts` stands for `time.Now().String()`. -/
def genesisBlock (ts : String) : Block := ⟨0, ts, [], "", calculateHash zeroBlock, "", difficulty⟩

/-- `initializeBlockchain` (main.go:59-63): the initial chain state. -/
def initializeBlockchain (ts : String) : List Block := [genesisBlock ts]

/-- The candidate block assembled by `generateBlock` (main.go:118-127) before
the mining loop runs: `Hash` and `Nonce` still hold their zero values. -/
def candidateBlock (oldBlock : Block) (transactions : List Transaction) (ts : String) : Block :=
  { Index := oldBlock.Index + 1, Timestamp := ts, Transactions := transactions,
    PrevHash := oldBlock.Hash, Hash := "", Nonce := "", Difficulty := difficulty }

/-- The loop-body test of main.go:130-136 at nonce `n`: the digest of the
candidate with `Nonce` set to the decimal string of `n` passes `isHashValid`
at the block's difficulty. -/
def nonceOk (b : Block) (n : Nat) : Bool :=
  isHashValid (calculateHash { b with Nonce := toString n }) b.Difficulty

/-- The mining loop `for i := 0; ; i++` of main.go:130-137, with explicit
fuel: `none` means the loop has not terminated within `fuel` iterations.
On success the block is returned with the successful decimal nonce and its
digest stored in `Hash`. -/
def mineLoop (b : Block) : Nat → Nat → Option Block
  | _, 0 => none
  | i, fuel + 1 =>
    if nonceOk b i then
      some { b with Nonce := toString i, Hash := calculateHash { b with Nonce := toString i } }
    else mineLoop b (i + 1) fuel

/-- `generateBlock` (main.go:118-140): assemble the candidate and run the
mining loop from nonce 0. -/
def generateBlock (oldBlock : Block) (transactions : List Transaction) (ts : String)
    (fuel : Nat) : Option Block :=
  mineLoop (candidateBlock oldBlock transactions ts) 0 fuel

/-- `handleWriteTransaction` (main.go:88-115), after JSON decoding: returns
the new chain state together with the observable response.  `none` models the
cases in which the request never produces a response (the mining loop has not
terminated within `fuel`, or the chain is empty and the Go code would panic on
`Blockchain[len(Blockchain)-1]`; the latter is unreachable from reachable
states). -/
def handleWriteTransaction (chain : List Block) (transaction : Transaction) (ts : String)
    (fuel : Nat) : Option (List Block × Response) :=
  if !isTransactionValid transaction then some (chain, Response.invalidTransaction)
  else
    match chain.getLast? with
    | none => none
    | some tailBlock =>
      match generateBlock tailBlock [transaction] ts fuel with
      | none => none
      | some newBlock =>
        if isBlockValid newBlock tailBlock then
          some (chain ++ [newBlock], Response.committed newBlock.Index)
        else some (chain, Response.invalidBlock)

/-- `handleGetBlockchain` (main.go:78-85): a snapshot read serializes the
current chain and does not modify it. -/
def handleGetBlockchain (chain : List Block) : List Block := chain

/-- Ledger states reachable through the documented flow: genesis construction
at startup followed by any sequence of `POST /` requests that produce a
response.  `ts` parameters stand for the values of `time.Now().String()`. -/
inductive Reachable : List Block → Prop where
  | init (ts : String) : Reachable (initializeBlockchain ts)
  | step (chain chain2 : List Block) (t : Transaction) (ts : String) (fuel : Nat) (r : Response)
      (hr : Reachable chain)
      (h : handleWriteTransaction chain t ts fuel = some (chain2, r)) : Reachable chain2

/-- Linkage of one adjacent pair of blocks: successor index, hash chaining,
and digest recomputation. -/
def linkOk (prev cur : Block) : Prop :=
  cur.Index = prev.Index + 1 ∧ cur.PrevHash = prev.Hash ∧ calculateHash cur = cur.Hash

/-- The structural chain invariant: non-empty, genesis-shaped head, and
`linkOk` for every adjacent pair. -/
def chainInvariant (chain : List Block) : Prop :=
  chain ≠ [] ∧
  (match chain.head? with
   | some b0 => b0.Index = 0 ∧ b0.PrevHash = "" ∧ b0.Transactions = []
   | none => False) ∧
  List.Chain' linkOk chain

/-! ## Concrete values used by witnesses and counterexamples -/

/-- A sample `time.Now().String()` value. -/
def gts0 : String := "2026-01-01 00:00:00 +0000 UTC"

/-- The transaction of the spec's concrete scenario. -/
def tx0 : Transaction := ⟨"alice", "bob", 10⟩

/-- A concrete genesis block (genesis timestamp "g"). -/
def gBlock : Block := genesisBlock "g"

/-- The concrete initial chain. -/
def chain0 : List Block := initializeBlockchain "g"

/-- The block mined for `tx0` on top of `gBlock` with timestamp "t1": nonce 0
already satisfies difficulty 1. -/
def minedBlock0 : Block :=
  ⟨1, "t1", [tx0], gBlock.Hash,
   "055e9a43d48e0bb46439f8d646dcb84c3ea4b234fd60a56ea02cc688c5060270", "0", 1⟩

/-- The concrete two-block chain after committing `tx0`. -/
def chain1 : List Block := chain0 ++ [minedBlock0]

/-- A predecessor block for the C1 witness. -/
def obW : Block := ⟨0, "", [], "", "", "", 1⟩

/-- A candidate block for the C1 witness: its `Hash` field holds the true
digest of its fields (the SHA-256 of the record string "1[]"), which does not
begin with the character 0. -/
def nbW : Block :=
  ⟨1, "", [], "", "2c9c1b0c26ecc4e9697ba29a841da17d9e1c9277598cb5d35fcf2ca8dd800ccf", "", 1⟩

/-- A concrete mining payload with one arbitrary `Hash` and `Nonce`. -/
def payloadA : Block := ⟨1, "t", [], "p", "hashA", "nA", 1⟩

/-- The same payload as `payloadA` with different `Hash` and `Nonce` fields. -/
def payloadB : Block := ⟨1, "t", [], "p", "hashB", "nB", 1⟩

/-! ## Helper lemmas -/

theorem mineLoop_zero (b : Block) (i : Nat) : mineLoop b i 0 = none := rfl

theorem mineLoop_succ (b : Block) (i fuel : Nat) :
    mineLoop b i (fuel + 1) =
      if nonceOk b i then
        some { b with Nonce := toString i, Hash := calculateHash { b with Nonce := toString i } }
      else mineLoop b (i + 1) fuel := rfl

theorem calculateHash_hash_irrelevant (b : Block) (s h : String) :
    calculateHash { b with Nonce := s, Hash := h } = calculateHash { b with Nonce := s } := rfl

/-- The block produced when the mining loop of main.go:130-137 succeeds at
nonce `n`: the candidate with the decimal nonce written into `Nonce` and its
digest written into `Hash`. -/
def minedResult (b : Block) (n : Nat) : Block :=
  { b with Nonce := toString n, Hash := calculateHash { b with Nonce := toString n } }

theorem calculateHash_minedResult (b : Block) (n : Nat) :
    calculateHash (minedResult b n) = (minedResult b n).Hash := by
  unfold minedResult
  exact calculateHash_hash_irrelevant b (toString n) (calculateHash { b with Nonce := toString n })

theorem calculateHash_def (b : Block) :
    calculateHash b = sha256Hex (toString b.Index ++ b.Timestamp ++ b.PrevHash ++
      sprintTransactions b.Transactions ++ b.Nonce) := rfl

theorem calculateHash_congr (b1 b2 : Block) (h1 : b1.Index = b2.Index)
    (h2 : b1.Timestamp = b2.Timestamp) (h3 : b1.Transactions = b2.Transactions)
    (h4 : b1.PrevHash = b2.PrevHash) (h5 : b1.Nonce = b2.Nonce) :
    calculateHash b1 = calculateHash b2 := by
  rw [calculateHash_def, calculateHash_def, h1, h2, h3, h4, h5]

/-! ## Concrete evaluation facts (kernel computations of SHA-256)

The facts below evaluate `calculateHash` on concrete inputs; they are placed
before `calculateHash` is made irreducible for the structural development. -/

/-- Mining `tx0` on top of the concrete genesis block with timestamp "t1"
succeeds at nonce 0 and produces exactly `minedBlock0`. -/
theorem mined_hgen : generateBlock gBlock [tx0] "t1" 1 = some minedBlock0 := by decide

/-- The concrete genesis block's stored hash is not the digest of its stored
fields (its timestamp entered the record only after hashing). -/
theorem genesis_digest_ne :
    calculateHash (genesisBlock gts0) ≠ (genesisBlock gts0).Hash := by decide

/-- The concrete genesis block's stored hash fails the difficulty test. -/
theorem genesis_not_difficulty :
    isHashValid (genesisBlock gts0).Hash difficulty = false := by decide

/-- The C1 witness candidate stores the true digest of its fields. -/
theorem nbW_digest : calculateHash nbW = nbW.Hash := by decide

/-- The C1 witness candidate's hash fails the difficulty test. -/
theorem nbW_not_difficulty : isHashValid nbW.Hash nbW.Difficulty = false := by decide

attribute [irreducible] calculateHash

theorem mineLoop_eq_some (b : Block) :
    ∀ (fuel i : Nat) (nb : Block), mineLoop b i fuel = some nb →
      ∃ n : Nat, i ≤ n ∧ nonceOk b n = true ∧
        (∀ m : Nat, i ≤ m → m < n → nonceOk b m = false) ∧ nb = minedResult b n := by
  intro fuel
  induction fuel with
  | zero => intro i nb h; simp [mineLoop_zero] at h
  | succ fuel ih =>
    intro i nb h
    rw [mineLoop_succ] at h
    by_cases hc : nonceOk b i = true
    · rw [if_pos hc] at h
      refine ⟨i, Nat.le_refl i, hc, ?_, (Option.some_inj.mp h).symm⟩
      intro m h1 h2
      omega
    · rw [if_neg hc] at h
      obtain ⟨n, hn1, hn2, hn3, hn4⟩ := ih (i + 1) nb h
      refine ⟨n, by omega, hn2, ?_, hn4⟩
      intro m h1 h2
      rcases Nat.eq_or_lt_of_le h1 with he | hl
      · rw [← he]
        cases hbv : nonceOk b i with
        | true => exact absurd hbv hc
        | false => rfl
      · exact hn3 m hl h2

theorem generateBlock_eq_some (oldBlock : Block) (txs : List Transaction) (ts : String)
    (fuel : Nat) (nb : Block) (h : generateBlock oldBlock txs ts fuel = some nb) :
    ∃ n : Nat, nonceOk (candidateBlock oldBlock txs ts) n = true ∧
      (∀ m : Nat, m < n → nonceOk (candidateBlock oldBlock txs ts) m = false) ∧
      nb = minedResult (candidateBlock oldBlock txs ts) n := by
  unfold generateBlock at h
  obtain ⟨n, _, h2, h3, h4⟩ := mineLoop_eq_some (candidateBlock oldBlock txs ts) fuel 0 nb h
  exact ⟨n, h2, fun m hm => h3 m (Nat.zero_le m) hm, h4⟩

theorem minedResult_Index (b : Block) (n : Nat) : (minedResult b n).Index = b.Index := rfl

theorem minedResult_Timestamp (b : Block) (n : Nat) :
    (minedResult b n).Timestamp = b.Timestamp := rfl

theorem minedResult_Transactions (b : Block) (n : Nat) :
    (minedResult b n).Transactions = b.Transactions := rfl

theorem minedResult_PrevHash (b : Block) (n : Nat) :
    (minedResult b n).PrevHash = b.PrevHash := rfl

theorem minedResult_Difficulty (b : Block) (n : Nat) :
    (minedResult b n).Difficulty = b.Difficulty := rfl

theorem minedResult_Nonce (b : Block) (n : Nat) : (minedResult b n).Nonce = toString n := rfl

theorem minedResult_Hash (b : Block) (n : Nat) :
    (minedResult b n).Hash = calculateHash { b with Nonce := toString n } := rfl

theorem candidateBlock_Index (o : Block) (txs : List Transaction) (ts : String) :
    (candidateBlock o txs ts).Index = o.Index + 1 := rfl

theorem candidateBlock_Timestamp (o : Block) (txs : List Transaction) (ts : String) :
    (candidateBlock o txs ts).Timestamp = ts := rfl

theorem candidateBlock_Transactions (o : Block) (txs : List Transaction) (ts : String) :
    (candidateBlock o txs ts).Transactions = txs := rfl

theorem candidateBlock_PrevHash (o : Block) (txs : List Transaction) (ts : String) :
    (candidateBlock o txs ts).PrevHash = o.Hash := rfl

theorem candidateBlock_Difficulty (o : Block) (txs : List Transaction) (ts : String) :
    (candidateBlock o txs ts).Difficulty = difficulty := rfl

theorem nonceOk_eq (b : Block) (n : Nat) :
    nonceOk b n = isHashValid (calculateHash { b with Nonce := toString n }) b.Difficulty := rfl

theorem generateBlock_fields (oldBlock : Block) (txs : List Transaction) (ts : String)
    (fuel : Nat) (nb : Block) (h : generateBlock oldBlock txs ts fuel = some nb) :
    nb.Index = oldBlock.Index + 1 ∧ nb.PrevHash = oldBlock.Hash ∧ nb.Timestamp = ts ∧
      nb.Transactions = txs ∧ nb.Difficulty = difficulty ∧
      calculateHash nb = nb.Hash ∧ isHashValid nb.Hash difficulty = true := by
  obtain ⟨n, h1, h2, h3⟩ := generateBlock_eq_some oldBlock txs ts fuel nb h
  rw [nonceOk_eq, candidateBlock_Difficulty] at h1
  refine ⟨?_, ?_, ?_, ?_, ?_, ?_, ?_⟩
  · rw [h3, minedResult_Index, candidateBlock_Index]
  · rw [h3, minedResult_PrevHash, candidateBlock_PrevHash]
  · rw [h3, minedResult_Timestamp, candidateBlock_Timestamp]
  · rw [h3, minedResult_Transactions, candidateBlock_Transactions]
  · rw [h3, minedResult_Difficulty, candidateBlock_Difficulty]
  · rw [h3]
    exact calculateHash_minedResult (candidateBlock oldBlock txs ts) n
  · rw [h3, minedResult_Hash]
    exact h1

theorem isBlockValid_eq_true (newBlock oldBlock : Block) :
    isBlockValid newBlock oldBlock = true ↔
      (oldBlock.Index + 1 = newBlock.Index ∧ oldBlock.Hash = newBlock.PrevHash ∧
        calculateHash newBlock = newBlock.Hash) := by
  unfold isBlockValid
  split_ifs with h1 h2 h3 <;> simp_all [bne_iff_ne]

theorem generateBlock_valid (oldBlock : Block) (txs : List Transaction) (ts : String)
    (fuel : Nat) (nb : Block) (h : generateBlock oldBlock txs ts fuel = some nb) :
    isBlockValid nb oldBlock = true := by
  obtain ⟨hidx, hprev, _, _, _, hdig, _⟩ := generateBlock_fields oldBlock txs ts fuel nb h
  exact (isBlockValid_eq_true nb oldBlock).mpr ⟨hidx.symm, hprev.symm, hdig⟩

theorem isTransactionValid_eq_true (t : Transaction) :
    isTransactionValid t = true ↔ (t.Sender ≠ "" ∧ t.Receiver ≠ "" ∧ 0 < t.Amount) := by
  unfold isTransactionValid
  split_ifs with h
  · simp only [Bool.or_eq_true, beq_iff_eq, decide_eq_true_eq] at h
    refine iff_of_false (by simp) ?_
    rintro ⟨h1, h2, h3⟩
    rcases h with (h | h) | h
    · exact h1 h
    · exact h2 h
    · exact absurd h3 (not_lt.mpr h)
  · simp only [Bool.or_eq_true, beq_iff_eq, decide_eq_true_eq, not_or, not_le] at h
    exact iff_of_true rfl ⟨h.1.1, h.1.2, h.2⟩

theorem handleWriteTransaction_invalid (chain : List Block) (t : Transaction) (ts : String)
    (fuel : Nat) (h : isTransactionValid t = false) :
    handleWriteTransaction chain t ts fuel = some (chain, Response.invalidTransaction) := by
  simp [handleWriteTransaction, h]

theorem handleWriteTransaction_commit (chain : List Block) (t : Transaction) (ts : String)
    (fuel : Nat) (tailBlock newBlock : Block)
    (hv : isTransactionValid t = true)
    (htail : chain.getLast? = some tailBlock)
    (hgen : generateBlock tailBlock [t] ts fuel = some newBlock)
    (hbv : isBlockValid newBlock tailBlock = true) :
    handleWriteTransaction chain t ts fuel =
      some (chain ++ [newBlock], Response.committed newBlock.Index) := by
  simp [handleWriteTransaction, hv, htail, hgen, hbv]

theorem handleWriteTransaction_cases (chain chain2 : List Block) (t : Transaction) (ts : String)
    (fuel : Nat) (r : Response)
    (h : handleWriteTransaction chain t ts fuel = some (chain2, r)) :
    chain2 = chain ∨
      ∃ tailBlock newBlock, chain.getLast? = some tailBlock ∧
        generateBlock tailBlock [t] ts fuel = some newBlock ∧
        isBlockValid newBlock tailBlock = true ∧ chain2 = chain ++ [newBlock] := by
  unfold handleWriteTransaction at h
  split at h
  · left
    simp only [Option.some_inj, Prod.mk.injEq] at h
    exact h.1.symm
  · split at h
    · simp at h
    · next tailBlock htail =>
      split at h
      · simp at h
      · next newBlock hgen =>
        split at h
        · next hbv =>
          right
          simp only [Option.some_inj, Prod.mk.injEq] at h
          exact ⟨tailBlock, newBlock, htail, hgen, hbv, h.1.symm⟩
        · left
          simp only [Option.some_inj, Prod.mk.injEq] at h
          exact h.1.symm

theorem reachable_chainInvariant : ∀ s : List Block, Reachable s → chainInvariant s := by
  intro s h
  induction h with
  | init ts =>
    exact ⟨by simp [initializeBlockchain], ⟨rfl, rfl, rfl⟩, List.chain'_singleton _⟩
  | step chain chain2 t ts fuel r hr hstep ih =>
    rcases handleWriteTransaction_cases chain chain2 t ts fuel r hstep with
      hEq | ⟨tailB, nb, hlast, hgen, hbv, hEq⟩
    · rwa [hEq]
    · subst hEq
      obtain ⟨hne, hhead, hch⟩ := ih
      refine ⟨by simp, ?_, ?_⟩
      · cases chain with
        | nil => exact absurd rfl hne
        | cons a as => exact hhead
      · rw [List.chain'_append]
        refine ⟨hch, List.chain'_singleton _, ?_⟩
        intro x hx y hy
        rw [hlast] at hx
        have hx2 : tailB = x := by simpa using hx
        have hy2 : nb = y := by simpa using hy
        subst hx2
        subst hy2
        obtain ⟨h1, h2, h3⟩ := (isBlockValid_eq_true nb tailB).mp hbv
        exact ⟨h1.symm, h2.symm, h3⟩

/-- C2 (amended): for every block after the genesis position in a chain
produced through the documented flow, recomputing the digest equals the
stored `Hash` and the first `difficulty` characters of the hash are all the
character 0 (the `isHashValid` test).  The genesis block itself satisfies
neither property: its `Hash` is the digest of a zero-valued block, computed
before its timestamp was assigned and never checked against the difficulty
(see the accompanying counterexample). -/
theorem reachable_nonGenesis_blocks : ∀ s : List Block, Reachable s →
    ∀ b ∈ s.drop 1, calculateHash b = b.Hash ∧ isHashValid b.Hash difficulty = true := by
  intro s h
  induction h with
  | init ts =>
    intro b hb
    simp [initializeBlockchain] at hb
  | step chain chain2 t ts fuel r hr hstep ih =>
    rcases handleWriteTransaction_cases chain chain2 t ts fuel r hstep with
      hEq | ⟨tailB, nb, hlast, hgen, hbv, hEq⟩
    · rwa [hEq]
    · subst hEq
      intro b hb
      have hne : chain ≠ [] := by
        intro hc
        rw [hc] at hlast
        simp at hlast
      rw [List.drop_append_of_le_length (List.length_pos.mpr hne)] at hb
      rcases List.mem_append.mp hb with hb | hb
      · exact ih b hb
      · have hbnb : b = nb := by simpa using hb
        subst hbnb
        obtain ⟨_, _, _, _, _, hdig, hzero⟩ := generateBlock_fields tailB [t] ts fuel b hgen
        exact ⟨hdig, hzero⟩

/-! ## Claim theorems -/

/-- C1: `isBlockValid(candidate, predecessor)` returns true if and only if the
candidate's index is the predecessor's index plus one, the candidate's
`PrevHash` equals the predecessor's `Hash`, and recomputing the digest of the
candidate equals its stored `Hash`; in particular no difficulty-prefix check
is performed, so a candidate meeting the three conditions whose hash fails
`isHashValid` is still accepted. -/
theorem isBlockValid_spec :
    (∀ newBlock oldBlock : Block,
        isBlockValid newBlock oldBlock = true ↔
          (oldBlock.Index + 1 = newBlock.Index ∧ oldBlock.Hash = newBlock.PrevHash ∧
            calculateHash newBlock = newBlock.Hash)) ∧
    (∀ newBlock oldBlock : Block,
        oldBlock.Index + 1 = newBlock.Index → oldBlock.Hash = newBlock.PrevHash →
        calculateHash newBlock = newBlock.Hash →
        isHashValid newBlock.Hash newBlock.Difficulty = false →
        isBlockValid newBlock oldBlock = true) :=
  ⟨isBlockValid_eq_true,
   fun nb ob h1 h2 h3 _ => (isBlockValid_eq_true nb ob).mpr ⟨h1, h2, h3⟩⟩

/-- C4: every reachable ledger state is a non-empty chain whose first block
has index 0, empty `PrevHash` and an empty transaction list, and whose
adjacent pairs satisfy index linkage, hash linkage and digest recomputation;
a snapshot read (`handleGetBlockchain`) returns the state unchanged, so it
preserves the invariant as well. -/
theorem reachable_invariant :
    ∀ s : List Block, Reachable s →
      chainInvariant s ∧ chainInvariant (handleGetBlockchain s) :=
  fun s h => ⟨reachable_chainInvariant s h, reachable_chainInvariant s h⟩

/-- C5: `isTransactionValid(t)` returns true if and only if the sender and
receiver strings are non-empty and the amount is strictly positive. -/
theorem isTransactionValid_spec (t : Transaction) :
    isTransactionValid t = true ↔ (t.Sender ≠ "" ∧ t.Receiver ≠ "" ∧ 0 < t.Amount) :=
  isTransactionValid_eq_true t

/-- C6: when the mining loop of `generateBlock` terminates, the produced block
carries the decimal string of some nonce `n` whose digest satisfies the
difficulty test, every smaller nonce fails the test (the loop enumerates
nonces in ascending order from 0), and the block's `Hash` is exactly that
digest. -/
theorem generateBlock_least_nonce (oldBlock : Block) (txs : List Transaction) (ts : String)
    (fuel : Nat) (nb : Block) (h : generateBlock oldBlock txs ts fuel = some nb) :
    ∃ n : Nat, nb.Nonce = toString n ∧
      nb.Hash = calculateHash { candidateBlock oldBlock txs ts with Nonce := toString n } ∧
      nonceOk (candidateBlock oldBlock txs ts) n = true ∧
      ∀ m : Nat, m < n → nonceOk (candidateBlock oldBlock txs ts) m = false := by
  obtain ⟨n, h1, h2, h3⟩ := generateBlock_eq_some oldBlock txs ts fuel nb h
  refine ⟨n, ?_, ?_, h1, h2⟩
  · rw [h3, minedResult_Nonce]
  · rw [h3, minedResult_Hash]

/-- C7: any block returned by `generateBlock(predecessor, transactions)`
passes `isBlockValid` against that predecessor: its index is the
predecessor's index plus one, its `PrevHash` is the predecessor's `Hash`, and
its stored hash equals its recomputed digest; hence the block-validity
rejection in the submission flow is unreachable in sequential use. -/
theorem generateBlock_blockValid (oldBlock : Block) (txs : List Transaction) (ts : String)
    (fuel : Nat) (nb : Block) (h : generateBlock oldBlock txs ts fuel = some nb) :
    isBlockValid nb oldBlock = true ∧ nb.Index = oldBlock.Index + 1 ∧
      nb.PrevHash = oldBlock.Hash ∧ calculateHash nb = nb.Hash := by
  obtain ⟨hidx, hprev, _, _, _, hdig, _⟩ := generateBlock_fields oldBlock txs ts fuel nb h
  exact ⟨generateBlock_valid oldBlock txs ts fuel nb h, hidx, hprev, hdig⟩

/-- C8: submitting a valid transaction to a chain with tail `tailBlock`,
when the mining loop terminates, commits: the handler returns the chain
extended by exactly the one mined block, whose `PrevHash` is the old tail's
`Hash`, and responds with the new block's index. -/
theorem handleWrite_commits (chain : List Block) (t : Transaction) (ts : String) (fuel : Nat)
    (tailBlock nb : Block)
    (hv : isTransactionValid t = true)
    (htail : chain.getLast? = some tailBlock)
    (hgen : generateBlock tailBlock [t] ts fuel = some nb) :
    handleWriteTransaction chain t ts fuel =
      some (chain ++ [nb], Response.committed nb.Index) ∧
    (chain ++ [nb]).length = chain.length + 1 ∧ nb.PrevHash = tailBlock.Hash := by
  have hbv := generateBlock_valid tailBlock [t] ts fuel nb hgen
  obtain ⟨_, hprev, _, _, _, _, _⟩ := generateBlock_fields tailBlock [t] ts fuel nb hgen
  exact ⟨handleWriteTransaction_commit chain t ts fuel tailBlock nb hv htail hgen hbv,
    by simp, hprev⟩

/-- C9: a transaction with empty sender, empty receiver, or non-positive
amount is rejected with the "Invalid transaction" response and the chain is
returned exactly unchanged, whatever the current state, timestamp and fuel. -/
theorem handleWrite_rejects (t : Transaction)
    (h : t.Sender = "" ∨ t.Receiver = "" ∨ t.Amount ≤ 0) :
    ∀ (chain : List Block) (ts : String) (fuel : Nat),
      handleWriteTransaction chain t ts fuel = some (chain, Response.invalidTransaction) := by
  intro chain ts fuel
  have hf : isTransactionValid t = false := by
    cases hv : isTransactionValid t
    · rfl
    · obtain ⟨h1, h2, h3⟩ := (isTransactionValid_eq_true t).mp hv
      rcases h with h | h | h
      · exact absurd h h1
      · exact absurd h h2
      · exact absurd h3 (not_lt.mpr h)
  exact handleWriteTransaction_invalid chain t ts fuel hf

/-- C10: the mining search is a function of the block payload alone: two
candidate blocks that agree on index, timestamp, transactions, previous hash
and difficulty (but may differ in their initial `Hash` and `Nonce` fields)
make the loop return identical results — the same nonce and the same hash —
from any starting nonce and fuel; re-running the search is trivially
deterministic since `mineLoop` is a pure function. -/
theorem mineLoop_payload_determined (b1 b2 : Block) (h1 : b1.Index = b2.Index)
    (h2 : b1.Timestamp = b2.Timestamp) (h3 : b1.Transactions = b2.Transactions)
    (h4 : b1.PrevHash = b2.PrevHash) (h5 : b1.Difficulty = b2.Difficulty) :
    ∀ (fuel i : Nat), mineLoop b1 i fuel = mineLoop b2 i fuel := by
  intro fuel
  induction fuel with
  | zero => intro i; rfl
  | succ fuel ih =>
    intro i
    have hch : calculateHash { b1 with Nonce := toString i } =
        calculateHash { b2 with Nonce := toString i } :=
      calculateHash_congr { b1 with Nonce := toString i } { b2 with Nonce := toString i }
        h1 h2 h3 h4 rfl
    have hok : nonceOk b1 i = nonceOk b2 i := by
      rw [nonceOk_eq, nonceOk_eq, hch, h5]
    rw [mineLoop_succ, mineLoop_succ, hok]
    by_cases hc : nonceOk b2 i = true
    · rw [if_pos hc, if_pos hc]
      refine congrArg some ?_
      simp only [Block.mk.injEq]
      exact ⟨h1, h2, h3, h4, hch, trivial, h5⟩
    · rw [if_neg hc, if_neg hc]
      exact ih (i + 1)

/-! ## Counterexample and witnesses -/

/-- C3: the genesis block's stored `Hash` equals the digest of the zero-valued
block (index 0, empty timestamp, empty previous hash, empty transaction list,
empty nonce), whatever timestamp the genesis block itself received, because
`calculateHash` is applied to the zero value before the final fields are
assigned; for a concrete non-empty timestamp the stored hash therefore
differs from the digest of the genesis block as finally stored. -/
theorem genesis_hash_is_zero_value_digest :
    (∀ ts : String, (genesisBlock ts).Hash = calculateHash zeroBlock) ∧
    zeroBlock.Index = 0 ∧ zeroBlock.Timestamp = "" ∧ zeroBlock.PrevHash = "" ∧
    zeroBlock.Transactions = [] ∧ zeroBlock.Nonce = "" ∧
    calculateHash (genesisBlock gts0) ≠ (genesisBlock gts0).Hash :=
  ⟨fun _ => rfl, rfl, rfl, rfl, rfl, rfl, genesis_digest_ne⟩

/-- C3 (witness): the zero-value digest fact instantiated at a concrete
genesis timestamp. -/
theorem genesis_hash_is_zero_value_digest_witness :
    (genesisBlock "g").Hash = calculateHash zeroBlock :=
  genesis_hash_is_zero_value_digest.1 "g"

/-- C2 (counterexample): the initial chain — reachable through the documented
flow — contains a block (the genesis block, with a concrete timestamp) whose
stored hash is not the digest of its stored fields and does not begin with
the required zero characters, refuting the claim as stated for all blocks. -/
theorem genesis_digest_mismatch :
    Reachable (initializeBlockchain gts0) ∧
    genesisBlock gts0 ∈ initializeBlockchain gts0 ∧
    calculateHash (genesisBlock gts0) ≠ (genesisBlock gts0).Hash ∧
    isHashValid (genesisBlock gts0).Hash difficulty = false :=
  ⟨Reachable.init gts0, by simp [initializeBlockchain], genesis_digest_ne,
   genesis_not_difficulty⟩

/-- C2 (witness): a concrete two-block reachable chain whose single
non-genesis block satisfies digest recomputation and the difficulty test. -/
theorem reachable_nonGenesis_blocks_witness :
    calculateHash minedBlock0 = minedBlock0.Hash ∧
    isHashValid minedBlock0.Hash difficulty = true := by
  have hbv : isBlockValid minedBlock0 gBlock = true :=
    generateBlock_valid gBlock [tx0] "t1" 1 minedBlock0 mined_hgen
  have hcommit : handleWriteTransaction chain0 tx0 "t1" 1 =
      some (chain1, Response.committed minedBlock0.Index) :=
    handleWriteTransaction_commit chain0 tx0 "t1" 1 gBlock minedBlock0
      (by decide) rfl mined_hgen hbv
  have hreach : Reachable chain1 :=
    Reachable.step chain0 chain1 tx0 "t1" 1 (Response.committed minedBlock0.Index)
      (Reachable.init "g") hcommit
  exact reachable_nonGenesis_blocks chain1 hreach minedBlock0
    (by simp [chain1, chain0, initializeBlockchain])

/-- C1 (witness): a concrete candidate that satisfies the three linkage and
digest conditions while failing the difficulty test is still accepted by
`isBlockValid`. -/
theorem isBlockValid_spec_witness :
    (calculateHash nbW = nbW.Hash ∧ isHashValid nbW.Hash nbW.Difficulty = false) ∧
    isBlockValid nbW obW = true :=
  ⟨⟨nbW_digest, nbW_not_difficulty⟩,
   isBlockValid_spec.2 nbW obW (by decide) (by decide) nbW_digest nbW_not_difficulty⟩

/-- C4 (witness): the invariant holds at the concrete initial chain. -/
theorem reachable_invariant_witness :
    Reachable chain0 ∧ chainInvariant chain0 :=
  ⟨Reachable.init "g", (reachable_invariant chain0 (Reachable.init "g")).1⟩

/-- C5 (witness): the concrete transaction (alice, bob, 10) is valid. -/
theorem isTransactionValid_spec_witness : isTransactionValid tx0 = true :=
  (isTransactionValid_spec tx0).mpr (by decide)

/-- C6 (witness): the concrete mining run for `tx0` on top of the genesis
block, instantiating the least-nonce property. -/
theorem generateBlock_least_nonce_witness :
    generateBlock gBlock [tx0] "t1" 1 = some minedBlock0 ∧
    (∃ n : Nat, minedBlock0.Nonce = toString n ∧
      minedBlock0.Hash =
        calculateHash { candidateBlock gBlock [tx0] "t1" with Nonce := toString n } ∧
      nonceOk (candidateBlock gBlock [tx0] "t1") n = true ∧
      ∀ m : Nat, m < n → nonceOk (candidateBlock gBlock [tx0] "t1") m = false) :=
  ⟨mined_hgen, generateBlock_least_nonce gBlock [tx0] "t1" 1 minedBlock0 mined_hgen⟩

/-- C7 (witness): the concretely mined block passes `isBlockValid` against
its predecessor. -/
theorem generateBlock_blockValid_witness :
    generateBlock gBlock [tx0] "t1" 1 = some minedBlock0 ∧
    (isBlockValid minedBlock0 gBlock = true ∧ minedBlock0.Index = gBlock.Index + 1 ∧
      minedBlock0.PrevHash = gBlock.Hash ∧ calculateHash minedBlock0 = minedBlock0.Hash) :=
  ⟨mined_hgen, generateBlock_blockValid gBlock [tx0] "t1" 1 minedBlock0 mined_hgen⟩

/-- C8 (witness): submitting the concrete valid transaction commits and
extends the concrete chain by one block. -/
theorem handleWrite_commits_witness :
    isTransactionValid tx0 = true ∧
    handleWriteTransaction chain0 tx0 "t1" 1 =
      some (chain0 ++ [minedBlock0], Response.committed minedBlock0.Index) ∧
    (chain0 ++ [minedBlock0]).length = chain0.length + 1 ∧
    minedBlock0.PrevHash = gBlock.Hash := by
  have hv : isTransactionValid tx0 = true := by decide
  obtain ⟨ha, hb, hc⟩ := handleWrite_commits chain0 tx0 "t1" 1 gBlock minedBlock0 hv rfl mined_hgen
  exact ⟨hv, ha, hb, hc⟩

/-- C9 (witness): a transaction with an empty sender is rejected and the
concrete chain is unchanged. -/
theorem handleWrite_rejects_witness :
    (Transaction.mk "" "bob" 10).Sender = "" ∧
    handleWriteTransaction chain0 ⟨"", "bob", 10⟩ "t1" 5 =
      some (chain0, Response.invalidTransaction) :=
  ⟨rfl, handleWrite_rejects ⟨"", "bob", 10⟩ (Or.inl rfl) chain0 "t1" 5⟩

/-- C10 (witness): two concrete blocks with equal payloads but different
stored `Hash` and `Nonce` make the mining loop return identical results. -/
theorem mineLoop_payload_determined_witness :
    payloadA.Hash ≠ payloadB.Hash ∧ payloadA.Index = payloadB.Index ∧
    mineLoop payloadA 0 2 = mineLoop payloadB 0 2 :=
  ⟨by decide, rfl, mineLoop_payload_determined payloadA payloadB rfl rfl rfl rfl rfl 2 0⟩
